import Mathlib

set_option linter.unusedVariables false

namespace FasMonitor

/-! String helpers modelling the Python string primitives used by server.py.
They operate on the underlying character lists so that every definition is
structurally recursive and evaluates inside the kernel. -/

/-- Characters Python treats as whitespace in the strings this code base handles. -/
def isSpaceChar (c : Char) : Bool :=
  c = ' ' || c = '\t' || c = '\n' || c = '\r'

/-- Model of Python str.strip for the ASCII whitespace appearing in this code base. -/
def pyStrip (s : String) : String :=
  String.mk (((s.data.dropWhile isSpaceChar).reverse.dropWhile isSpaceChar).reverse)

/-- Value of the decimal digits of a list of digit characters. -/
def digitsToNat (l : List Char) : Nat :=
  l.foldl (fun n c => n * 10 + (c.toNat - 48)) 0

/-- Model of Python int(str) on plain decimal strings: optional surrounding
whitespace, optional sign, then at least one digit; none models a ValueError. -/
def pyParseInt (s : String) : Option Int :=
  let l := ((s.data.dropWhile isSpaceChar).reverse.dropWhile isSpaceChar).reverse
  match l with
  | '-' :: ds => if ds ≠ [] ∧ ds.all Char.isDigit then some (-(digitsToNat ds : Int)) else none
  | '+' :: ds => if ds ≠ [] ∧ ds.all Char.isDigit then some ((digitsToNat ds : Int)) else none
  | ds => if ds ≠ [] ∧ ds.all Char.isDigit then some ((digitsToNat ds : Int)) else none

/-- Split of a character list at every occurrence of the separator. -/
def splitOnChar (c : Char) : List Char → List (List Char)
  | [] => [[]]
  | x :: xs =>
    match splitOnChar c xs with
    | [] => [[]]
    | y :: ys => if x = c then [] :: y :: ys else (x :: y) :: ys

/-- Model of Python str.split with a one-character separator. -/
def pySplit (sep : Char) (s : String) : List String :=
  (splitOnChar sep s.data).map String.mk

/-- ASCII upper-casing of one character. -/
def asciiUpperChar (c : Char) : Char :=
  if 'a' ≤ c ∧ c ≤ 'z' then Char.ofNat (c.toNat - 32) else c

/-- Model of Python str.upper on the ASCII team labels this code base handles. -/
def pyUpper (s : String) : String :=
  String.mk (s.data.map asciiUpperChar)

/-- Joining a list of strings with a separator, modelling Python str.join. -/
def joinSep (sep : String) : List String → String
  | [] => ""
  | [x] => x
  | x :: xs => x ++ sep ++ joinSep sep xs

/-- Whether the first list is a prefix of the second, as a Bool. -/
def listStartsWith : List Char → List Char → Bool
  | [], _ => true
  | _ :: _, [] => false
  | p :: ps, x :: xs => p = x && listStartsWith ps xs

/-- Replacement of every non-overlapping occurrence of a pattern, scanning left
to right; the Nat argument counts characters still to skip after a match. -/
def replaceAux (pat repl : List Char) : Nat → List Char → List Char
  | _, [] => []
  | 0, x :: xs =>
    if pat ≠ [] ∧ listStartsWith pat (x :: xs) then
      repl ++ replaceAux pat repl (pat.length - 1) xs
    else
      x :: replaceAux pat repl 0 xs
  | k + 1, _ :: xs => replaceAux pat repl k xs

/-- Model of Python str.replace (all occurrences, left to right). -/
def pyReplace (s pat repl : String) : String :=
  String.mk (replaceAux pat.data repl.data 0 s.data)

/-- Strict lexicographic comparison of character lists by code point, the
ordering Python uses to compare the strings of this code base. -/
def charListLt : List Char → List Char → Bool
  | [], [] => false
  | [], _ :: _ => true
  | _ :: _, [] => false
  | a :: as, b :: bs => if a = b then charListLt as bs else decide (a < b)

/-! Data model.  A record of the fas_historical collection is a loosely typed
document; every field the code reads with dict.get is an Option, none meaning
the key is absent. -/

/-- One per-position entry of a record's matches array. -/
structure MatchEntry where
  result : Option String
  teams : Option String
  deriving DecidableEq

instance : Inhabited MatchEntry := ⟨⟨none, none⟩⟩

/-- One stored round record as read back from the fas_historical collection. -/
structure Record where
  data_sisal : Option String
  data : Option String
  giornata : Option String
  ora : Option String
  matchList : List MatchEntry
  order : Option Int
  deriving DecidableEq

/-- The date string the sort key reads: data_sisal, falling back to data,
falling back to the constant default, as in _sort_records. -/
def dateOf (r : Record) : String :=
  r.data_sisal.getD (r.data.getD "00/00/0000")

/-- The giornata string as read with default by the report generators. -/
def giornataOf (r : Record) : String := r.giornata.getD "?"

/-- The result string of the match entry at a position, empty when the field is
missing, as in matches[pos].get with default. -/
def resultAt (r : Record) (pos : Nat) : String :=
  ((r.matchList.getD pos default).result).getD ""

/-- The composite sort key of _sort_records: (normalized date, ora, giornata),
where the date DD/MM/YYYY is rearranged to YYYYMMDD when it splits into exactly
three slash-delimited parts and is used raw otherwise, and a missing or
non-numeric giornata becomes 0. -/
def sortKey (r : Record) : String × String × Int :=
  let d := dateOf r
  let parts := pySplit '/' d
  let date_str :=
    if parts.length = 3 then (parts.getD 2 "") ++ (parts.getD 1 "") ++ (parts.getD 0 "") else d
  let g : Int :=
    match r.giornata with
    | some s => (pyParseInt s).getD 0
    | none => 0
  (date_str, r.ora.getD "00:00", g)

/-- Strict lexicographic order on composite sort keys, as Python compares the
key tuples. -/
def keyLtB (a b : String × String × Int) : Bool :=
  charListLt a.1.data b.1.data ||
    (decide (a.1 = b.1) &&
      (charListLt a.2.1.data b.2.1.data ||
        (decide (a.2.1 = b.2.1) && decide (a.2.2 < b.2.2))))

/-- The non-strict ordering of records by composite sort key used by the
chronological sequencer. -/
def recLe (a b : Record) : Prop :=
  keyLtB (sortKey a) (sortKey b) = true ∨ sortKey a = sortKey b

instance : DecidableRel recLe := fun a b =>
  inferInstanceAs (Decidable (_ ∨ _))

/-- The chronological sequencer _sort_records: a stable ascending sort of the
records by the composite key. -/
def sort_records (records : List Record) : List Record :=
  List.insertionSort recLe records

/-- Ascending order by the insertion-order field, default 0, used when the
streak reports re-sort the loaded records by order. -/
def orderLe (a b : Record) : Prop := a.order.getD 0 ≤ b.order.getD 0

instance : DecidableRel orderLe := fun a b =>
  inferInstanceAs (Decidable (_ ≤ _))

/-- Descending order by the insertion-order field, used by the most recent N
history query. -/
def orderGe (a b : Record) : Prop := b.order.getD 0 ≤ a.order.getD 0

instance : DecidableRel orderGe := fun a b =>
  inferInstanceAs (Decidable (_ ≤ _))

/-- The record list the total streak analysis scans: the chronologically loaded
history re-sorted ascending by the insertion-order field. -/
def streakInput (coll : List Record) : List Record :=
  List.insertionSort orderLe (sort_records coll)

/-- The record list the most recent N history query fetches: sorted by the
insertion-order field descending, limited to 15. -/
def historyFetched (coll : List Record) : List Record :=
  (List.insertionSort orderGe coll).take 15

/-- The fetched history rows in display order, after the reverse. -/
def historyShown (coll : List Record) : List Record :=
  (historyFetched coll).reverse

/-! The streak engine of generate_streak_message_from_db. -/

/-- The histogram floor of the streak reports. -/
def MIN_STREAK : Nat := 5

/-- is_consecutive: whether g2 is the round after g1 under the cyclic rule,
failing closed when either side does not parse as an integer. -/
def is_consecutive (g1 g2 : String) : Bool :=
  match pyParseInt g1, pyParseInt g2 with
  | some n1, some n2 => if n1 = 22 then decide (n2 = 1) else decide (n2 = n1 + 1)
  | _, _ => false

/-- The mutable scan state of the per-position streak engine. -/
structure StreakState where
  counts : List (Nat × Nat)
  current : Nat
  maxS : Nat
  start : Option String
  ongoing : Bool
  lastG : Option String
  deriving DecidableEq

/-- Incrementing the histogram entry of a run length, inserting it at 1 when
absent, as the Python dict update does. -/
def bump (l : List (Nat × Nat)) (k : Nat) : List (Nat × Nat) :=
  match l with
  | [] => [(k, 1)]
  | (k', v) :: rest => if k' = k then (k', v + 1) :: rest else (k', v) :: bump rest k

/-- Closing the active run: flushed into the histogram when it meets the floor,
folded into the maximum, and reset. -/
def closeStreak (s : StreakState) : StreakState :=
  { s with
    counts := if MIN_STREAK ≤ s.current then bump s.counts s.current else s.counts,
    maxS := max s.maxS s.current,
    current := 0,
    start := none }

/-- The discontinuity check run before a record is processed: when a previous
round is on record and a run is active and the current round is not consecutive
to it, the active run is force-closed. -/
def streakGapClose (giornata : String) (s : StreakState) : StreakState :=
  match s.lastG with
  | some lg => if 0 < s.current ∧ is_consecutive lg giornata = false then closeStreak s else s
  | none => s

/-- Processing of the outcome itself: a matching outcome extends the run (and,
on the last record, marks it ongoing and folds it into the maximum); any other
outcome closes the run. -/
def streakCore (giornata result : String) (isLast : Bool) (s1 : StreakState) : StreakState :=
  if result = "NG" then
    if isLast then
      { s1 with current := s1.current + 1,
                start := if s1.current = 0 then some giornata else s1.start,
                ongoing := true,
                maxS := max s1.maxS (s1.current + 1) }
    else
      { s1 with current := s1.current + 1,
                start := if s1.current = 0 then some giornata else s1.start }
  else closeStreak s1

/-- One iteration of the per-position streak scan over a record, with the flag
telling whether this record is the last of the sequence. -/
def streakStep (pos : Nat) (isLast : Bool) (s : StreakState) (r : Record) : StreakState :=
  if pos < r.matchList.length then
    { streakCore (giornataOf r) (resultAt r pos) isLast (streakGapClose (giornataOf r) s) with
      lastG := some (giornataOf r) }
  else s

/-- The left to right scan of the per-position streak engine. -/
def streakScanAux (pos : Nat) : StreakState → List Record → StreakState
  | s, [] => s
  | s, r :: rs => streakScanAux pos (streakStep pos rs.isEmpty s r) rs

/-- The empty scan state. -/
def initStreak : StreakState := ⟨[], 0, 0, none, false, none⟩

/-- The state of the per-position streak engine at the end of its scan loop. -/
def streakScan (pos : Nat) (records : List Record) : StreakState :=
  streakScanAux pos initStreak records

/-- The per-position streak statistics after the trailing ongoing run, when it
meets the floor, is also counted into the histogram. -/
def streakFinal (pos : Nat) (records : List Record) : StreakState :=
  if MIN_STREAK ≤ (streakScan pos records).current ∧ (streakScan pos records).ongoing = true then
    { streakScan pos records with
      counts := bump (streakScan pos records).counts (streakScan pos records).current }
  else streakScan pos records

/-- The outcome sequence of one position: the result strings of the records
that have an entry at that position, in record order. -/
def outcomesAt (pos : Nat) (records : List Record) : List String :=
  (records.filter (fun r => decide (pos < r.matchList.length))).map (fun r => resultAt r pos)

/-! The team aggregator and the by-team streak scan. -/

/-- The fixed roster of the 12 monitored team codes. -/
def TEAMS : List String :=
  ["SAM", "ROM", "UDI", "NAP", "INT", "GEN", "VER", "ATA", "JUV", "LAZ", "MIL", "FIO"]

/-- One accumulated per-team observation. -/
structure TeamObs where
  result : String
  giornata : String
  ora : String
  opponent : String
  deriving DecidableEq

/-- The observations one match entry of a record contributes to one team, per
build_team_history_from_records: the teams label is split on the dash, each
side trimmed and upper-cased, and a side matching the roster and the requested
team yields one observation tagged with the opposite side. -/
def obsFromMatch (r : Record) (team : String) (m : MatchEntry) : List TeamObs :=
  let teams_str := m.teams.getD ""
  if teams_str = "" then []
  else
    let parts := pySplit '-' teams_str
    if parts.length = 2 then
      let home_team := pyUpper (pyStrip (parts.getD 0 ""))
      let away_team := pyUpper (pyStrip (parts.getD 1 ""))
      let result := m.result.getD ""
      (if home_team ∈ TEAMS ∧ home_team = team then
        [⟨result, giornataOf r, r.ora.getD "", away_team⟩] else [])
      ++ (if away_team ∈ TEAMS ∧ away_team = team then
        [⟨result, giornataOf r, r.ora.getD "", home_team⟩] else [])
    else []

/-- The accumulated observation sequence of one team over a record list. -/
def build_team_history (records : List Record) (team : String) : List TeamObs :=
  records.flatMap (fun r => r.matchList.flatMap (obsFromMatch r team))

/-- The mutable scan state of the by-team streak scan, which tracks no round
number and no start marker. -/
structure TeamStreakState where
  counts : List (Nat × Nat)
  current : Nat
  maxS : Nat
  ongoing : Bool
  deriving DecidableEq

/-- One iteration of the by-team streak scan of generate_streak_message_by_team,
which runs no discontinuity check. -/
def teamStreakStep (isLast : Bool) (s : TeamStreakState) (o : TeamObs) : TeamStreakState :=
  if o.result = "NG" then
    if isLast then
      { s with current := s.current + 1, ongoing := true, maxS := max s.maxS (s.current + 1) }
    else { s with current := s.current + 1 }
  else
    { s with
      counts := if MIN_STREAK ≤ s.current then bump s.counts s.current else s.counts,
      maxS := max s.maxS s.current,
      current := 0 }

/-- The left to right scan of the by-team streak computation. -/
def teamStreakScanAux : TeamStreakState → List TeamObs → TeamStreakState
  | s, [] => s
  | s, o :: os => teamStreakScanAux (teamStreakStep os.isEmpty s o) os

/-- The state of the by-team streak scan at the end of its loop. -/
def teamStreakScan (obs : List TeamObs) : TeamStreakState :=
  teamStreakScanAux ⟨[], 0, 0, false⟩ obs

/-- The by-team streak statistics after the trailing ongoing run, when it meets
the floor, is also counted into the histogram. -/
def teamStreakFinal (obs : List TeamObs) : TeamStreakState :=
  if MIN_STREAK ≤ (teamStreakScan obs).current ∧ (teamStreakScan obs).ongoing = true then
    { teamStreakScan obs with
      counts := bump (teamStreakScan obs).counts (teamStreakScan obs).current }
  else teamStreakScan obs

/-- A one-match record carrying one team observation, used to feed a team's
accumulated sequence to the per-position engine at position 0. -/
def obsToRecord (o : TeamObs) : Record :=
  { data_sisal := none, data := none, giornata := some o.giornata, ora := some o.ora,
    matchList := [{ result := some o.result, teams := none }], order := none }

/-- The streak statistics the per-position engine reports: histogram, trailing
run, maximum run, ongoing flag. -/
def posStatsTuple (pos : Nat) (records : List Record) : List (Nat × Nat) × Nat × Nat × Bool :=
  ((streakFinal pos records).counts, (streakFinal pos records).current,
    (streakFinal pos records).maxS, (streakFinal pos records).ongoing)

/-- The streak statistics the by-team scan reports. -/
def teamStatsTuple (obs : List TeamObs) : List (Nat × Nat) × Nat × Nat × Bool :=
  ((teamStreakFinal obs).counts, (teamStreakFinal obs).current,
    (teamStreakFinal obs).maxS, (teamStreakFinal obs).ongoing)

/-! The simple trailing-streak computation of generate_stats_message_from_db. -/

/-- Zero padding of a giornata label, per pad_giornata. -/
def pad_giornata (g : String) : String :=
  match pyParseInt g with
  | some n => if 0 ≤ n ∧ n < 10 then "0" ++ toString n else toString n
  | none => g

/-- The mutable state of the backward stats scan. -/
structure StatsState where
  consecutive_ng : Nat
  consecutive_g : Nat
  total_g : Nat
  total_ng : Nat
  streak_started_at : Option String
  deriving DecidableEq

/-- One iteration of the backward stats scan over a record: a trailing NG is
counted only while no goal was seen yet, a goal is counted as trailing only
while no NG was seen yet, and the totals always advance. -/
def statsStep (pos : Nat) (s : StatsState) (r : Record) : StatsState :=
  if pos < r.matchList.length then
    if resultAt r pos = "NG" then
      if s.consecutive_g = 0 then
        { s with consecutive_ng := s.consecutive_ng + 1,
                 streak_started_at := some (pad_giornata (giornataOf r)),
                 total_ng := s.total_ng + 1 }
      else { s with total_ng := s.total_ng + 1 }
    else
      if s.consecutive_ng = 0 then
        { s with consecutive_g := s.consecutive_g + 1, total_g := s.total_g + 1 }
      else { s with total_g := s.total_g + 1 }
  else s

/-- The stats scan: the records are walked from the last to the first. -/
def statsScan (pos : Nat) (records : List Record) : StatsState :=
  records.reverse.foldl (statsStep pos) ⟨0, 0, 0, 0, none⟩

/-! The history renderer and the template splice of the webhook. -/

/-- One data row of the history report. -/
def dataRow (r : Record) : String :=
  let g := pad_giornata (giornataOf r)
  let results := joinSep " " (r.matchList.map (fun m => if m.result.getD "" = "G" then "🟢" else "🔴"))
  "G<b>" ++ g ++ "</b> " ++ r.ora.getD "" ++ "  " ++ results ++ "\n"

/-- The concatenated data rows of the history report. -/
def dataRows (records : List Record) : String :=
  joinSep "" (records.map dataRow)

/-- generate_history_message_from_db over the fetched records, the collection
count and the clock read: raw mode emits the stripped data rows only, full mode
wraps them in the header and the generated-at timestamp. -/
def generate_history_message (records : List Record) (total : Nat) (now : String)
    (raw_data_only : Bool) : String :=
  if records.isEmpty then
    if raw_data_only then "(nessun dato)"
    else "📋 <b>STORICO FAS</b>\n\nNessun dato. Sincronizza con 📡 Sync."
  else
    let rows := dataRows records
    if raw_data_only then pyStrip rows
    else
      "📋 <b>STORICO FAS</b>\n\n" ++
      "📋 <b>ULTIME " ++ toString records.length ++ " GIORNATE</b> (di " ++ toString total ++
      " totali)\n━━━━━━━━━━━━━━━━━\n" ++
      "                       1   2   3   4   5   6\n" ++
      rows ++
      "\n🕐 " ++ now

/-- The template splice of telegram_webhook: a literal replacement of the data
placeholder and then of the timestamp placeholder. -/
def spliceTemplate (tpl fresh_data ts : String) : String :=
  pyReplace (pyReplace tpl "{data}" fresh_data) "{timestamp}" ts

/-! The sync push into the permanent historical collection. -/

/-- One incoming record of a sync batch. -/
structure SyncRecord where
  dataRicerca : Option String
  data : Option String
  giornata : Option String
  ora : Option String
  matchList : List MatchEntry
  id : Option Int
  deriving DecidableEq

/-- Python truthiness of an optional string: an absent or empty string falls
through an or-chain. -/
def truthyStr (o : Option String) : Option String :=
  match o with
  | some s => if s = "" then none else some s
  | none => none

/-- The date component of the identity key: dataRicerca or data or the unknown
marker, per the or-chain of telegram_sync. -/
def syncDataSisal (r : SyncRecord) : String :=
  ((truthyStr r.dataRicerca).orElse (fun _ => truthyStr r.data)).getD "sconosciuta"

/-- The composite identity key date_giornata_ora a batch item is upserted
under. -/
def syncKey (r : SyncRecord) : String :=
  syncDataSisal r ++ "_" ++ r.giornata.getD "?" ++ "_" ++ r.ora.getD ""

/-- The stored shape of one permanent historical document. -/
structure HistDoc where
  data_sisal : String
  data_estrazione : String
  giornata : String
  ora : String
  matchList : List MatchEntry
  synced_at : String
  order : Int
  deriving DecidableEq

/-- The document written for one batch item at one batch index. -/
def mkHistDoc (now : String) (idx : Nat) (r : SyncRecord) : HistDoc :=
  { data_sisal := syncDataSisal r
    data_estrazione := r.data.getD ""
    giornata := r.giornata.getD "?"
    ora := r.ora.getD ""
    matchList := r.matchList
    synced_at := now
    order := r.id.getD (idx : Int) }

/-- The permanent historical collection, keyed by the composite identity key. -/
abbrev HistColl := List (String × HistDoc)

/-- Whether the collection holds a document under a key. -/
def hasKey (c : HistColl) (k : String) : Bool :=
  c.any (fun p => decide (p.1 = k))

/-- A keyed upsert: overwrite of the stored content when the key is present,
insertion otherwise; the Bool is the was-this-an-insert signal. -/
def upsertOne (c : HistColl) (k : String) (d : HistDoc) : HistColl × Bool :=
  if hasKey c k then (c.map (fun p => if p.1 = k then (k, d) else p), false)
  else (c ++ [(k, d)], true)

/-- The accumulation loop of telegram_sync over a batch: every item is upserted
under its identity key and the new insertions are counted. -/
def pushBatchAux (now : String) : HistColl → Nat → Nat → List SyncRecord → HistColl × Nat
  | c, n, _, [] => (c, n)
  | c, n, idx, r :: rs =>
    let res := upsertOne c (syncKey r) (mkHistDoc now idx r)
    pushBatchAux now res.1 (if res.2 then n + 1 else n) (idx + 1) rs

/-- One sync push of a batch into the permanent collection: the resulting
collection and the reported count of new insertions. -/
def pushBatch (c : HistColl) (batch : List SyncRecord) (now : String) : HistColl × Nat :=
  pushBatchAux now c 0 0 batch

/-- The adjacency condition exactly as the claim words it: both sides parse and
either the second equals the first plus 1, or the first is 22 and the second
is 1.  Stated for comparison with the code's is_consecutive. -/
def claimAdjacent (g1 g2 : String) : Bool :=
  match pyParseInt g1, pyParseInt g2 with
  | some n1, some n2 => decide (n2 = n1 + 1) || (decide (n1 = 22) && decide (n2 = 1))
  | _, _ => false

/-- A record with a well-formed date, used to instantiate the sequencer
theorem. -/
def rC6 : Record :=
  ⟨some "05/02/2026", none, some "7", some "10:30", [⟨some "NG", none⟩], some 1⟩

/-- Chronologically first but inserted second. -/
def rC5a : Record :=
  ⟨some "01/01/2026", none, some "1", some "10:00", [⟨some "NG", none⟩], some 2⟩

/-- Chronologically second but inserted first. -/
def rC5b : Record :=
  ⟨some "02/01/2026", none, some "2", some "10:00", [⟨some "NG", none⟩], some 1⟩

/-- An NG outcome entry. -/
def ngEntry : MatchEntry := ⟨some "NG", none⟩

/-- A goal outcome entry. -/
def gEntry : MatchEntry := ⟨some "G", none⟩

/-- A one-position record at a given round and insertion order. -/
def mkRec (g : String) (ms : List MatchEntry) (ord : Int) : Record :=
  ⟨some "04/02/2026", none, some g, some "10:00", ms, some ord⟩

/-- An unbroken NG outcome sequence spanning the round-number gap 3 to 7. -/
def gapRecsC1 : List Record :=
  [mkRec "1" [ngEntry] 1, mkRec "2" [ngEntry] 2, mkRec "3" [ngEntry] 3,
   mkRec "7" [ngEntry] 4, mkRec "8" [ngEntry] 5, mkRec "9" [ngEntry] 6]

/-- A two-run state about to hit the round gap from 3 to 7, instantiating the
discontinuity law. -/
def sC1w : StreakState := ⟨[], 2, 2, some "2", false, some "3"⟩

/-- The record at round 7 the gap is observed against. -/
def rC1w : Record := mkRec "7" [ngEntry] 4

/-- A sequence whose last record has no entry at position 0, leaving a trailing
run unfolded into the maximum. -/
def c2recs : List Record := [mkRec "1" [ngEntry] 1, mkRec "2" [] 2]

/-- A single full record closing with the position present. -/
def rC2w : Record := mkRec "5" [ngEntry] 1

/-- A record whose position 0 entry is present but carries no result field. -/
def rC10w : Record := mkRec "4" [⟨none, none⟩] 1

/-- A position outcome sequence NG, G, NG: the trailing NG run has length 1. -/
def recsC4 : List Record := [mkRec "1" [ngEntry] 1, mkRec "2" [gEntry] 2, mkRec "3" [ngEntry] 3]

/-- Two history rows as fetched for the raw render. -/
def recsC9 : List Record := [mkRec "3" [ngEntry, gEntry] 3, mkRec "4" [gEntry, gEntry] 4]

/-- Two SAM matches, both NG, at the non-adjacent rounds 1 and 7. -/
def recsC3 : List Record :=
  [⟨some "04/02/2026", none, some "1", some "10:00", [⟨some "NG", some "SAM-ROM"⟩], some 1⟩,
   ⟨some "04/02/2026", none, some "7", some "10:00", [⟨some "NG", some "SAM-ROM"⟩], some 2⟩]

/-- SAM observations at the adjacent rounds 4 and 5. -/
def obsC3w : List TeamObs := [⟨"NG", "4", "10:00", "ROM"⟩, ⟨"NG", "5", "10:00", "JUV"⟩]

/-! Order theory of the comparison relations, needed to show the sorts produce
sorted permutations. -/

theorem charListLt_irrefl : ∀ (a : List Char), charListLt a a = false := by
  intro a
  induction a with
  | nil => rfl
  | cons x xs ih => simp [charListLt, ih]

theorem charListLt_trans : ∀ (a b c : List Char),
    charListLt a b = true → charListLt b c = true → charListLt a c = true := by
  intro a
  induction a with
  | nil =>
    intro b c h1 h2
    cases b with
    | nil => exact h2
    | cons y ys =>
      cases c with
      | nil => simp [charListLt] at h2
      | cons z zs => simp [charListLt]
  | cons x xs ih =>
    intro b c h1 h2
    cases b with
    | nil => simp [charListLt] at h1
    | cons y ys =>
      cases c with
      | nil => simp [charListLt] at h2
      | cons z zs =>
        simp only [charListLt] at h1 h2 ⊢
        by_cases hxy : x = y
        · subst hxy
          rw [if_pos rfl] at h1
          by_cases hxz : x = z
          · subst hxz
            rw [if_pos rfl] at h2 ⊢
            exact ih ys zs h1 h2
          · rw [if_neg hxz] at h2 ⊢
            exact h2
        · rw [if_neg hxy] at h1
          by_cases hyz : y = z
          · subst hyz
            rw [if_neg hxy]
            exact h1
          · rw [if_neg hyz] at h2
            simp only [decide_eq_true_eq] at h1 h2
            have hxz : x < z := lt_trans h1 h2
            rw [if_neg (ne_of_lt hxz)]
            simp [hxz]

theorem charListLt_total : ∀ (a b : List Char), a ≠ b →
    charListLt a b = true ∨ charListLt b a = true := by
  intro a
  induction a with
  | nil =>
    intro b hne
    cases b with
    | nil => exact absurd rfl hne
    | cons y ys => left; rfl
  | cons x xs ih =>
    intro b hne
    cases b with
    | nil => right; rfl
    | cons y ys =>
      by_cases hxy : x = y
      · subst hxy
        have hts : xs ≠ ys := fun h => hne (by rw [h])
        rcases ih ys hts with h | h
        · left; simp [charListLt, h]
        · right; simp [charListLt, h]
      · rcases lt_or_gt_of_ne hxy with h | h
        · left; simp [charListLt, hxy, h]
        · right; simp [charListLt, Ne.symm hxy, h]

theorem string_eq_iff_data {a b : String} : a = b ↔ a.data = b.data := by
  cases a; cases b; exact ⟨fun h => by injection h, fun h => congrArg String.mk h⟩

theorem keyLtB_iff (a b : String × String × Int) :
    keyLtB a b = true ↔
      (charListLt a.1.data b.1.data = true ∨
        (a.1 = b.1 ∧ (charListLt a.2.1.data b.2.1.data = true ∨
          (a.2.1 = b.2.1 ∧ a.2.2 < b.2.2)))) := by
  simp [keyLtB]

theorem keyLtB_trans {a b c : String × String × Int}
    (h1 : keyLtB a b = true) (h2 : keyLtB b c = true) : keyLtB a c = true := by
  rw [keyLtB_iff] at h1 h2 ⊢
  rcases h1 with h1 | ⟨e1, h1⟩
  · rcases h2 with h2 | ⟨e2, h2⟩
    · exact Or.inl (charListLt_trans _ _ _ h1 h2)
    · left
      rw [string_eq_iff_data] at e2
      rw [← e2]
      exact h1
  · rcases h2 with h2 | ⟨e2, h2⟩
    · left
      rw [string_eq_iff_data] at e1
      rw [e1]
      exact h2
    · right
      refine ⟨e1.trans e2, ?_⟩
      rcases h1 with h1 | ⟨f1, h1⟩
      · rcases h2 with h2 | ⟨f2, h2⟩
        · exact Or.inl (charListLt_trans _ _ _ h1 h2)
        · left
          rw [string_eq_iff_data] at f2
          rw [← f2]
          exact h1
      · rcases h2 with h2 | ⟨f2, h2⟩
        · left
          rw [string_eq_iff_data] at f1
          rw [f1]
          exact h2
        · exact Or.inr ⟨f1.trans f2, lt_trans h1 h2⟩

theorem keyLtB_total {a b : String × String × Int} (hne : a ≠ b) :
    keyLtB a b = true ∨ keyLtB b a = true := by
  by_cases e1 : a.1 = b.1
  · by_cases e2 : a.2.1 = b.2.1
    · have e3 : a.2.2 ≠ b.2.2 := by
        intro h
        apply hne
        obtain ⟨a1, a2, a3⟩ := a
        obtain ⟨b1, b2, b3⟩ := b
        simp_all
      rcases lt_or_gt_of_ne e3 with h | h
      · left; rw [keyLtB_iff]; exact Or.inr ⟨e1, Or.inr ⟨e2, h⟩⟩
      · right; rw [keyLtB_iff]; exact Or.inr ⟨e1.symm, Or.inr ⟨e2.symm, h⟩⟩
    · have : a.2.1.data ≠ b.2.1.data := fun h => e2 (string_eq_iff_data.mpr h)
      rcases charListLt_total _ _ this with h | h
      · left; rw [keyLtB_iff]; exact Or.inr ⟨e1, Or.inl h⟩
      · right; rw [keyLtB_iff]; exact Or.inr ⟨e1.symm, Or.inl h⟩
  · have : a.1.data ≠ b.1.data := fun h => e1 (string_eq_iff_data.mpr h)
    rcases charListLt_total _ _ this with h | h
    · left; rw [keyLtB_iff]; exact Or.inl h
    · right; rw [keyLtB_iff]; exact Or.inl h

instance : IsTrans Record recLe where
  trans := by
    intro a b c h1 h2
    rcases h1 with h1 | h1
    · rcases h2 with h2 | h2
      · exact Or.inl (keyLtB_trans h1 h2)
      · exact Or.inl (h2 ▸ h1)
    · rcases h2 with h2 | h2
      · exact Or.inl (h1 ▸ h2)
      · exact Or.inr (h1.trans h2)

instance : IsTotal Record recLe where
  total := by
    intro a b
    by_cases h : sortKey a = sortKey b
    · exact Or.inl (Or.inr h)
    · rcases keyLtB_total h with h' | h'
      · exact Or.inl (Or.inl h')
      · exact Or.inr (Or.inl h')

instance : IsTrans Record orderLe where
  trans := fun _ _ _ h1 h2 => le_trans h1 h2

instance : IsTotal Record orderLe where
  total := fun a b => Int.le_total _ _

instance : IsTrans Record orderGe where
  trans := fun _ _ _ h1 h2 => le_trans h2 h1

instance : IsTotal Record orderGe where
  total := fun a b => (Int.le_total _ _).symm

/-! Settlement of the claims. -/

/-- C7 counterexample: at rounds 22 and 23 the code's is_consecutive returns
false, although the claim's characterization — second equals first plus 1, or
first is 22 and second is 1 — is satisfied, so the claimed equivalence fails. -/
theorem C7_counterexample :
    is_consecutive "22" "23" = false ∧ claimAdjacent "22" "23" = true := by
  decide

theorem is_consecutive_eq_none_left {g1 g2 : String} (h : pyParseInt g1 = none) :
    is_consecutive g1 g2 = false := by
  unfold is_consecutive
  rw [h]

theorem is_consecutive_eq_none_right {g1 g2 : String} (h : pyParseInt g2 = none) :
    is_consecutive g1 g2 = false := by
  unfold is_consecutive
  cases h1 : pyParseInt g1 with
  | none => rfl
  | some n1 => rw [h]

theorem is_consecutive_eq_some {g1 g2 : String} {n1 n2 : Int}
    (h1 : pyParseInt g1 = some n1) (h2 : pyParseInt g2 = some n2) :
    is_consecutive g1 g2 = if n1 = 22 then decide (n2 = 1) else decide (n2 = n1 + 1) := by
  unfold is_consecutive
  rw [h1, h2]

/-- C7 (amended): is_consecutive returns true exactly when both arguments parse
as integers and the second is the round after the first under the cyclic rule —
the successor when the first is not 22, and exactly 1 when the first is 22; any
argument that does not parse yields false (fails closed).  In particular 22
followed by 1 is adjacent and 22 followed by 2 is not. -/
theorem C7_amended :
    (∀ g1 g2 : String, is_consecutive g1 g2 = true ↔
      ∃ n1 n2 : Int, pyParseInt g1 = some n1 ∧ pyParseInt g2 = some n2 ∧
        (if n1 = 22 then n2 = 1 else n2 = n1 + 1))
    ∧ is_consecutive "22" "1" = true ∧ is_consecutive "22" "2" = false := by
  refine ⟨?_, by decide, by decide⟩
  intro g1 g2
  cases h1 : pyParseInt g1 with
  | none => rw [is_consecutive_eq_none_left h1]; simp [h1]
  | some n1 =>
    cases h2 : pyParseInt g2 with
    | none => rw [is_consecutive_eq_none_right h2]; simp [h2]
    | some n2 =>
      rw [is_consecutive_eq_some h1 h2]
      constructor
      · intro h
        refine ⟨n1, n2, rfl, rfl, ?_⟩
        by_cases e : n1 = 22
        · rw [if_pos e] at h ⊢
          exact of_decide_eq_true h
        · rw [if_neg e] at h ⊢
          exact of_decide_eq_true h
      · rintro ⟨m1, m2, hm1, hm2, h⟩
        obtain rfl : n1 = m1 := Option.some.inj hm1
        obtain rfl : n2 = m2 := Option.some.inj hm2
        by_cases e : n1 = 22
        · rw [if_pos e] at h ⊢
          exact decide_eq_true h
        · rw [if_neg e] at h ⊢
          exact decide_eq_true h

/-- C7 witness: the amended characterization applied at the concrete adjacent
pair of rounds 5 and 6. -/
theorem C7_witness : is_consecutive "5" "6" = true :=
  (C7_amended.1 "5" "6").mpr ⟨5, 6, by decide, by decide, by decide⟩

/-- C6: the chronological sequencer returns a permutation of its input that is
sorted ascending by the composite key (normalized date, observation time, round
number); a date that does not split into exactly three slash-delimited parts is
used raw as the date key component, and a missing or non-numeric giornata
contributes 0 — the key function and the sort are total on every input. -/
theorem C6_sequencer :
    (∀ records : List Record,
        (sort_records records).Perm records ∧ List.Sorted recLe (sort_records records))
    ∧ (∀ r : Record, ∀ p1 p2 p3 : String,
        pySplit '/' (dateOf r) = [p1, p2, p3] → (sortKey r).1 = p3 ++ p2 ++ p1)
    ∧ (∀ r : Record, (pySplit '/' (dateOf r)).length ≠ 3 → (sortKey r).1 = dateOf r)
    ∧ (∀ r : Record, r.giornata = none → (sortKey r).2.2 = 0)
    ∧ (∀ r : Record, ∀ g : String, r.giornata = some g → pyParseInt g = none →
        (sortKey r).2.2 = 0) := by
  refine ⟨fun records =>
    ⟨List.perm_insertionSort recLe records, List.sorted_insertionSort recLe records⟩,
    ?_, ?_, ?_, ?_⟩
  · intro r p1 p2 p3 h
    simp [sortKey, h]
  · intro r h
    simp [sortKey, if_neg h]
  · intro r h
    simp [sortKey, h]
  · intro r g h hp
    simp [sortKey, h, hp]

/-- C6 witness: the date key of a concrete record with date 05/02/2026 is the
rearranged 20260205. -/
theorem C6_witness :
    pySplit '/' (dateOf rC6) = ["05", "02", "2026"] ∧ (sortKey rC6).1 = "20260205" :=
  ⟨by decide, (C6_sequencer.2.1 rC6 "05" "02" "2026" (by decide)).trans (by decide)⟩

/-- C5 counterexample: on a two-record collection whose chronological order
disagrees with the insertion-order field, the record sequence the total streak
analysis scans is not the sequencer's chronological ordering. -/
theorem C5_counterexample : streakInput [rC5a, rC5b] ≠ sort_records [rC5a, rC5b] := by
  decide

/-- C5 (amended): the total streak analysis re-sorts the chronologically loaded
records ascending by the insertion-order field before scanning, so its input is
a permutation of the collection sorted by insertion order — not the sequencer
ordering — while the most recent N history query fetches the records sorted by
insertion order descending, limited to 15. -/
theorem C5_amended :
    ∀ coll : List Record,
      (streakInput coll).Perm coll
      ∧ List.Sorted orderLe (streakInput coll)
      ∧ List.Sorted orderGe (historyFetched coll) := by
  intro coll
  refine ⟨?_, List.sorted_insertionSort orderLe _, ?_⟩
  · exact (List.perm_insertionSort orderLe _).trans (List.perm_insertionSort recLe coll)
  · exact List.Pairwise.sublist (List.take_sublist _ _) (List.sorted_insertionSort orderGe coll)

theorem hasKey_iff_mem (c : HistColl) (k : String) :
    hasKey c k = true ↔ k ∈ c.map Prod.fst := by
  simp only [hasKey, List.any_eq_true, decide_eq_true_eq, List.mem_map]

theorem upsertOne_keys_of_present (c : HistColl) (k : String) (d : HistDoc)
    (hk : hasKey c k = true) :
    ((upsertOne c k d).1).map Prod.fst = c.map Prod.fst := by
  unfold upsertOne
  rw [if_pos hk]
  simp only [List.map_map]
  apply List.map_congr_left
  intro p hp
  by_cases h : p.1 = k
  · simp [Function.comp, h]
  · simp [Function.comp, h]

theorem upsertOne_snd (c : HistColl) (k : String) (d : HistDoc)
    (hk : hasKey c k = true) : (upsertOne c k d).2 = false := by
  unfold upsertOne
  rw [if_pos hk]

theorem upsertOne_hasKey_self (c : HistColl) (k : String) (d : HistDoc) :
    hasKey (upsertOne c k d).1 k = true := by
  by_cases hk : hasKey c k = true
  · rw [hasKey_iff_mem, upsertOne_keys_of_present c k d hk, ← hasKey_iff_mem]
    exact hk
  · unfold upsertOne
    rw [if_neg hk]
    simp [hasKey]

theorem upsertOne_hasKey_mono (c : HistColl) (k' : String) (d : HistDoc) (k : String)
    (h : hasKey c k = true) : hasKey (upsertOne c k' d).1 k = true := by
  by_cases hk : hasKey c k' = true
  · rw [hasKey_iff_mem, upsertOne_keys_of_present c k' d hk, ← hasKey_iff_mem]
    exact h
  · unfold upsertOne
    rw [if_neg hk]
    simp only [hasKey, List.any_append]
    have h' : c.any (fun p => decide (p.1 = k)) = true := h
    rw [h']
    rfl

theorem pushBatchAux_hasKey_mono (now : String) :
    ∀ (batch : List SyncRecord) (c : HistColl) (n idx : Nat) (k : String),
      hasKey c k = true → hasKey (pushBatchAux now c n idx batch).1 k = true := by
  intro batch
  induction batch with
  | nil => intro c n idx k h; exact h
  | cons r rs ih =>
    intro c n idx k h
    exact ih _ _ _ k (upsertOne_hasKey_mono c (syncKey r) (mkHistDoc now idx r) k h)

theorem pushBatchAux_covers (now : String) :
    ∀ (batch : List SyncRecord) (c : HistColl) (n idx : Nat) (r : SyncRecord), r ∈ batch →
      hasKey (pushBatchAux now c n idx batch).1 (syncKey r) = true := by
  intro batch
  induction batch with
  | nil => intro c n idx r h; cases h
  | cons r0 rs ih =>
    intro c n idx r h
    rcases List.mem_cons.mp h with rfl | h'
    · exact pushBatchAux_hasKey_mono now rs _ _ _ _
        (upsertOne_hasKey_self c (syncKey r) (mkHistDoc now idx r))
    · exact ih _ _ _ r h'

theorem pushBatchAux_allPresent (now : String) :
    ∀ (batch : List SyncRecord) (c : HistColl) (n idx : Nat),
      (∀ r ∈ batch, hasKey c (syncKey r) = true) →
      (pushBatchAux now c n idx batch).2 = n
      ∧ ((pushBatchAux now c n idx batch).1).map Prod.fst = c.map Prod.fst := by
  intro batch
  induction batch with
  | nil => intro c n idx _; exact ⟨rfl, rfl⟩
  | cons r rs ih =>
    intro c n idx h
    have hk : hasKey c (syncKey r) = true := h r (List.mem_cons_self r rs)
    have hkeys := upsertOne_keys_of_present c (syncKey r) (mkHistDoc now idx r) hk
    have hsnd := upsertOne_snd c (syncKey r) (mkHistDoc now idx r) hk
    have hrest : ∀ r' ∈ rs, hasKey (upsertOne c (syncKey r) (mkHistDoc now idx r)).1
        (syncKey r') = true := by
      intro r' hr'
      rw [hasKey_iff_mem, hkeys, ← hasKey_iff_mem]
      exact h r' (List.mem_cons_of_mem r hr')
    have hstep :
        pushBatchAux now c n idx (r :: rs)
          = pushBatchAux now (upsertOne c (syncKey r) (mkHistDoc now idx r)).1 n (idx + 1) rs := by
      show pushBatchAux now (upsertOne c (syncKey r) (mkHistDoc now idx r)).1
          (if (upsertOne c (syncKey r) (mkHistDoc now idx r)).2 then n + 1 else n) (idx + 1) rs = _
      rw [hsnd]
      rfl
    rw [hstep]
    obtain ⟨h1, h2⟩ := ih _ n (idx + 1) hrest
    exact ⟨h1, h2.trans hkeys⟩

/-- C8: the sync push into the permanent historical collection is idempotent
with respect to the composite identity key: re-pushing the same batch reports
zero new insertions and leaves the collection's record count unchanged, because
every item is upserted under its date_giornata_ora key and the re-push only
overwrites stored content. -/
theorem C8_idempotent :
    ∀ (coll : HistColl) (batch : List SyncRecord) (now1 now2 : String),
      (pushBatch (pushBatch coll batch now1).1 batch now2).2 = 0
      ∧ ((pushBatch (pushBatch coll batch now1).1 batch now2).1).length
          = ((pushBatch coll batch now1).1).length := by
  intro coll batch now1 now2
  have hcov : ∀ r ∈ batch, hasKey (pushBatch coll batch now1).1 (syncKey r) = true :=
    fun r hr => pushBatchAux_covers now1 batch coll 0 0 r hr
  obtain ⟨h1, h2⟩ := pushBatchAux_allPresent now2 batch (pushBatch coll batch now1).1 0 0 hcov
  refine ⟨h1, ?_⟩
  have hlen := congrArg List.length h2
  rw [List.length_map, List.length_map] at hlen
  exact hlen

/-- C1: when a run is active and the recorded previous round is not cyclically
adjacent to the current record's round, the step behaves exactly as if the run
had first been force-closed — histogram fed when the run meets the floor, run
folded into the maximum, counter reset — and, concretely, six unbroken NG
outcomes at rounds 1,2,3,7,8,9 are reported as two runs of 3 with maximum 3,
never one run of 6. -/
theorem C1_discontinuity :
    (∀ (pos : Nat) (isLast : Bool) (s : StreakState) (r : Record) (lg : String),
      s.lastG = some lg → 0 < s.current →
      is_consecutive lg (giornataOf r) = false →
      pos < r.matchList.length →
      streakStep pos isLast s r = streakStep pos isLast (closeStreak s) r
        ∧ (closeStreak s).current = 0
        ∧ (closeStreak s).maxS = max s.maxS s.current
        ∧ (closeStreak s).counts =
            (if MIN_STREAK ≤ s.current then bump s.counts s.current else s.counts))
    ∧ (streakFinal 0 gapRecsC1).maxS = 3
    ∧ (streakFinal 0 gapRecsC1).counts = []
    ∧ (streakFinal 0 gapRecsC1).current = 3 := by
  refine ⟨?_, by decide, by decide, by decide⟩
  intro pos isLast s r lg hlg hcur hcons hpos
  refine ⟨?_, rfl, rfl, rfl⟩
  unfold streakStep
  rw [if_pos hpos, if_pos hpos]
  have h1 : streakGapClose (giornataOf r) s = closeStreak s := by
    unfold streakGapClose
    rw [hlg]
    exact if_pos ⟨hcur, hcons⟩
  have h2 : streakGapClose (giornataOf r) (closeStreak s) = closeStreak s := by
    unfold streakGapClose
    have hcl : (closeStreak s).lastG = some lg := hlg
    rw [hcl]
    apply if_neg
    rintro ⟨hc, -⟩
    exact absurd hc (by simp [closeStreak])
  rw [h1, h2]

/-- C1 witness: the discontinuity law applied at a concrete active-run state
meeting a round jump from 3 to 7. -/
theorem C1_witness :
    (sC1w.lastG = some "3" ∧ 0 < sC1w.current
      ∧ is_consecutive "3" (giornataOf rC1w) = false ∧ 0 < rC1w.matchList.length)
    ∧ streakStep 0 false sC1w rC1w = streakStep 0 false (closeStreak sC1w) rC1w :=
  ⟨⟨rfl, by decide, by decide, by decide⟩,
    (C1_discontinuity.1 0 false sC1w rC1w "3" rfl (by decide) (by decide) (by decide)).1⟩

/-- C2 counterexample: on a sequence whose trailing record lacks the position,
the engine ends its scan with current_streak 1 above max_streak 0, because the
ongoing-run fold only fires when the very last record carries the position. -/
theorem C2_counterexample :
    (streakFinal 0 c2recs).maxS < (streakFinal 0 c2recs).current := by
  decide

theorem streakCore_last_le (g res : String) (s1 : StreakState) :
    (streakCore g res true s1).current ≤ (streakCore g res true s1).maxS := by
  unfold streakCore
  by_cases h : res = "NG"
  · rw [if_pos h]
    exact le_max_right _ _
  · rw [if_neg h]
    exact Nat.zero_le _

theorem streakStep_last_le (pos : Nat) (s : StreakState) (r : Record)
    (hpos : pos < r.matchList.length) :
    (streakStep pos true s r).current ≤ (streakStep pos true s r).maxS := by
  unfold streakStep
  rw [if_pos hpos]
  exact streakCore_last_le _ _ _

theorem streakScanAux_last_le (pos : Nat) :
    ∀ (records : List Record) (s : StreakState), records ≠ [] →
      (∀ r, records.getLast? = some r → pos < r.matchList.length) →
      (streakScanAux pos s records).current ≤ (streakScanAux pos s records).maxS := by
  intro records
  induction records with
  | nil => intro s h _; exact absurd rfl h
  | cons r rs ih =>
    intro s _ hlast
    cases rs with
    | nil =>
      have hp : pos < r.matchList.length := hlast r rfl
      exact streakStep_last_le pos s r hp
    | cons r2 rs2 =>
      have hlast2 : ∀ x, (r2 :: rs2).getLast? = some x → pos < x.matchList.length := by
        intro x hx
        exact hlast x (by rw [List.getLast?_cons_cons]; exact hx)
      exact ih (streakStep pos false s r) (by simp) hlast2

theorem teamStreakStep_last_le (s : TeamStreakState) (o : TeamObs) :
    (teamStreakStep true s o).current ≤ (teamStreakStep true s o).maxS := by
  unfold teamStreakStep
  by_cases h : o.result = "NG"
  · rw [if_pos h]
    exact le_max_right _ _
  · rw [if_neg h]
    exact Nat.zero_le _

theorem teamStreakScanAux_last_le :
    ∀ (obs : List TeamObs) (s : TeamStreakState), obs ≠ [] →
      (teamStreakScanAux s obs).current ≤ (teamStreakScanAux s obs).maxS := by
  intro obs
  induction obs with
  | nil => intro s h; exact absurd rfl h
  | cons o os ih =>
    intro s _
    cases os with
    | nil => exact teamStreakStep_last_le s o
    | cons o2 os2 => exact ih (teamStreakStep false s o) (by simp)

/-- C2 (amended): whenever the last record of the sequence carries an entry at
the scanned position — in particular on every sequence of full six-position
records — the current streak at the end of the per-position scan never exceeds
the maximum streak; the by-team scan, which processes every observation,
satisfies the bound unconditionally.  (The unamended per-position claim fails
when the trailing record lacks the position; see the counterexample.) -/
theorem C2_amended :
    (∀ (pos : Nat) (records : List Record),
      (∀ r, records.getLast? = some r → pos < r.matchList.length) →
      (streakFinal pos records).current ≤ (streakFinal pos records).maxS)
    ∧ (∀ obs : List TeamObs,
      (teamStreakFinal obs).current ≤ (teamStreakFinal obs).maxS) := by
  constructor
  · intro pos records hlast
    have hfs : (streakFinal pos records).current = (streakScan pos records).current
        ∧ (streakFinal pos records).maxS = (streakScan pos records).maxS := by
      unfold streakFinal
      split
      · exact ⟨rfl, rfl⟩
      · exact ⟨rfl, rfl⟩
    rw [hfs.1, hfs.2]
    cases records with
    | nil => exact Nat.le_refl 0
    | cons r rs => exact streakScanAux_last_le pos (r :: rs) initStreak (by simp) hlast
  · intro obs
    have hfs : (teamStreakFinal obs).current = (teamStreakScan obs).current
        ∧ (teamStreakFinal obs).maxS = (teamStreakScan obs).maxS := by
      unfold teamStreakFinal
      split
      · exact ⟨rfl, rfl⟩
      · exact ⟨rfl, rfl⟩
    rw [hfs.1, hfs.2]
    cases obs with
    | nil => exact Nat.le_refl 0
    | cons o os => exact teamStreakScanAux_last_le (o :: os) ⟨[], 0, 0, false⟩ (by simp)

/-- C2 witness: the amended invariant applied to a one-record sequence whose
last record carries position 0. -/
theorem C2_witness :
    (streakFinal 0 [rC2w]).current ≤ (streakFinal 0 [rC2w]).maxS :=
  C2_amended.1 0 [rC2w] (fun r hr => by
    have hr' : r = rC2w := by simpa using hr.symm
    rw [hr']
    decide)

/-- C10: an entry present at the scanned position whose result is anything but
NG — including a missing or empty result field — terminates the active run in
the streak engine (the post-step current streak is 0) and advances the goal
tally of the stats scan; the entry is processed, never skipped. -/
theorem C10_nonNG :
    ∀ (pos : Nat) (isLast : Bool) (s : StreakState) (st : StatsState) (r : Record),
      pos < r.matchList.length → resultAt r pos ≠ "NG" →
      (streakStep pos isLast s r).current = 0
      ∧ (statsStep pos st r).total_g = st.total_g + 1 := by
  intro pos isLast s st r hpos hres
  constructor
  · unfold streakStep
    rw [if_pos hpos]
    show (streakCore (giornataOf r) (resultAt r pos) isLast
        (streakGapClose (giornataOf r) s)).current = 0
    unfold streakCore
    rw [if_neg hres]
    rfl
  · unfold statsStep
    rw [if_pos hpos, if_neg hres]
    by_cases h : st.consecutive_ng = 0
    · rw [if_pos h]
    · rw [if_neg h]

/-- C10 witness: the missing-result entry of a concrete record ends a running
streak and counts as a goal in the stats tallies. -/
theorem C10_witness :
    (0 < rC10w.matchList.length ∧ resultAt rC10w 0 ≠ "NG")
    ∧ (streakStep 0 false ⟨[], 3, 3, some "1", false, some "3"⟩ rC10w).current = 0
    ∧ (statsStep 0 ⟨0, 0, 0, 0, none⟩ rC10w).total_g = 0 + 1 :=
  ⟨⟨by decide, by decide⟩,
    (C10_nonNG 0 false ⟨[], 3, 3, some "1", false, some "3"⟩ ⟨0, 0, 0, 0, none⟩ rC10w
      (by decide) (by decide)).1,
    (C10_nonNG 0 false ⟨[], 3, 3, some "1", false, some "3"⟩ ⟨0, 0, 0, 0, none⟩ rC10w
      (by decide) (by decide)).2⟩

/-- C4: evaluation at the failing input NG, G, NG.  The stats scan reports a
trailing count of 2 although the maximal NG suffix of the position's outcome
sequence has length 1: the backward scan does not stop at the first
non-matching record, because once a trailing NG is counted the goal counter can
never start, so every older NG keeps being counted. -/
theorem C4_code_evaluation :
    (statsScan 0 recsC4).consecutive_ng = 2
    ∧ ((outcomesAt 0 recsC4).reverse.takeWhile (fun x => decide (x = "NG"))).length = 1
    ∧ (statsScan 0 recsC4).total_ng = 2 := by
  decide

/-- C9: in raw mode the history renderer's output is independent of the clock
and of the collection count and consists of exactly the stripped data rows —
the very rows the full render wraps between the section header and the
generated-at timestamp — and splicing raw output into a template is a pure
literal replacement of the data and timestamp placeholders that leaves any
other placeholder verbatim. -/
theorem C9_raw_render :
    (∀ (records : List Record) (total1 total2 : Nat) (now1 now2 : String),
        generate_history_message records total1 now1 true
          = generate_history_message records total2 now2 true)
    ∧ (∀ (records : List Record) (total : Nat) (now : String), records ≠ [] →
        generate_history_message records total now true = pyStrip (dataRows records)
        ∧ generate_history_message records total now false
          = "📋 <b>STORICO FAS</b>\n\n" ++ "📋 <b>ULTIME " ++ toString records.length
            ++ " GIORNATE</b> (di " ++ toString total
            ++ " totali)\n━━━━━━━━━━━━━━━━━\n"
            ++ "                       1   2   3   4   5   6\n"
            ++ dataRows records ++ "\n🕐 " ++ now)
    ∧ spliceTemplate "<b>HDR</b>\n{data}\nat {timestamp}\n{other}" (dataRows recsC9)
        "05/02/2026 10:00"
        = "<b>HDR</b>\n" ++ dataRows recsC9 ++ "\nat 05/02/2026 10:00\n{other}" := by
  refine ⟨?_, ?_, by decide⟩
  · intro records total1 total2 now1 now2
    cases records with
    | nil => rfl
    | cons r rs => rfl
  · intro records total now h
    cases records with
    | nil => exact absurd rfl h
    | cons r rs => exact ⟨rfl, rfl⟩

/-- C9 witness: the raw render of a concrete two-record fetch is exactly its
stripped data rows. -/
theorem C9_witness :
    (recsC9 ≠ []) ∧ generate_history_message recsC9 7 "05/02/2026 10:00" true
      = pyStrip (dataRows recsC9) :=
  ⟨by decide, (C9_raw_render.2.1 recsC9 7 "05/02/2026 10:00" (by decide)).1⟩

theorem giornataOf_obsToRecord (o : TeamObs) : giornataOf (obsToRecord o) = o.giornata := rfl

theorem resultAt_obsToRecord (o : TeamObs) : resultAt (obsToRecord o) 0 = o.result := rfl

theorem isEmpty_map_obs (os : List TeamObs) : (os.map obsToRecord).isEmpty = os.isEmpty := by
  cases os <;> rfl

theorem stepCorr (b : Bool) (ts : TeamStreakState) (ps : StreakState) (o : TeamObs)
    (h1 : ps.counts = ts.counts) (h2 : ps.current = ts.current) (h3 : ps.maxS = ts.maxS)
    (h4 : ps.ongoing = ts.ongoing)
    (hgap : streakGapClose o.giornata ps = ps) :
    (streakStep 0 b ps (obsToRecord o)).counts = (teamStreakStep b ts o).counts
    ∧ (streakStep 0 b ps (obsToRecord o)).current = (teamStreakStep b ts o).current
    ∧ (streakStep 0 b ps (obsToRecord o)).maxS = (teamStreakStep b ts o).maxS
    ∧ (streakStep 0 b ps (obsToRecord o)).ongoing = (teamStreakStep b ts o).ongoing
    ∧ (streakStep 0 b ps (obsToRecord o)).lastG = some o.giornata := by
  have hpos : 0 < (obsToRecord o).matchList.length := Nat.one_pos
  unfold streakStep
  rw [if_pos hpos, giornataOf_obsToRecord, resultAt_obsToRecord, hgap]
  unfold streakCore teamStreakStep
  by_cases hres : o.result = "NG"
  · rw [if_pos hres, if_pos hres]
    cases b
    · refine ⟨?_, ?_, ?_, ?_, ?_⟩
      · show ps.counts = ts.counts
        exact h1
      · show ps.current + 1 = ts.current + 1
        rw [h2]
      · show ps.maxS = ts.maxS
        exact h3
      · show ps.ongoing = ts.ongoing
        exact h4
      · rfl
    · refine ⟨?_, ?_, ?_, ?_, ?_⟩
      · show ps.counts = ts.counts
        exact h1
      · show ps.current + 1 = ts.current + 1
        rw [h2]
      · show max ps.maxS (ps.current + 1) = max ts.maxS (ts.current + 1)
        rw [h2, h3]
      · rfl
      · rfl
  · rw [if_neg hres, if_neg hres]
    refine ⟨?_, ?_, ?_, ?_, ?_⟩
    · show (if MIN_STREAK ≤ ps.current then bump ps.counts ps.current else ps.counts)
        = (if MIN_STREAK ≤ ts.current then bump ts.counts ts.current else ts.counts)
      rw [h1, h2]
    · rfl
    · show max ps.maxS ps.current = max ts.maxS ts.current
      rw [h2, h3]
    · show ps.ongoing = ts.ongoing
      exact h4
    · rfl

theorem teamPosCorr :
    ∀ (obs : List TeamObs) (ts : TeamStreakState) (ps : StreakState),
      ps.counts = ts.counts → ps.current = ts.current → ps.maxS = ts.maxS →
      ps.ongoing = ts.ongoing →
      (∀ lg o, ps.lastG = some lg → obs.head? = some o → is_consecutive lg o.giornata = true) →
      obs.Chain' (fun a b => is_consecutive a.giornata b.giornata = true) →
      (streakScanAux 0 ps (obs.map obsToRecord)).counts = (teamStreakScanAux ts obs).counts
      ∧ (streakScanAux 0 ps (obs.map obsToRecord)).current = (teamStreakScanAux ts obs).current
      ∧ (streakScanAux 0 ps (obs.map obsToRecord)).maxS = (teamStreakScanAux ts obs).maxS
      ∧ (streakScanAux 0 ps (obs.map obsToRecord)).ongoing = (teamStreakScanAux ts obs).ongoing := by
  intro obs
  induction obs with
  | nil => intro ts ps h1 h2 h3 h4 _ _; exact ⟨h1, h2, h3, h4⟩
  | cons o os ih =>
    intro ts ps h1 h2 h3 h4 hadj hchain
    have hgap : streakGapClose o.giornata ps = ps := by
      unfold streakGapClose
      cases hlg : ps.lastG with
      | none => rfl
      | some lg =>
        have hc := hadj lg o hlg rfl
        apply if_neg
        rintro ⟨-, hfalse⟩
        rw [hc] at hfalse
        cases hfalse
    obtain ⟨c1, c2, c3, c4, c5⟩ := stepCorr os.isEmpty ts ps o h1 h2 h3 h4 hgap
    have hchainSplit := List.chain'_cons'.mp hchain
    have hadj' : ∀ lg o2, (streakStep 0 os.isEmpty ps (obsToRecord o)).lastG = some lg →
        os.head? = some o2 → is_consecutive lg o2.giornata = true := by
      intro lg o2 hlg hh
      rw [c5] at hlg
      obtain rfl : o.giornata = lg := Option.some.inj hlg
      exact hchainSplit.1 o2 (Option.mem_def.mpr hh)
    simp only [List.map_cons, streakScanAux, teamStreakScanAux, isEmpty_map_obs]
    exact ih (teamStreakStep os.isEmpty ts o) (streakStep 0 os.isEmpty ps (obsToRecord o))
      c1 c2 c3 c4 hadj' hchainSplit.2

theorem finalCorr (obs : List TeamObs)
    (h1 : (streakScan 0 (obs.map obsToRecord)).counts = (teamStreakScan obs).counts)
    (h2 : (streakScan 0 (obs.map obsToRecord)).current = (teamStreakScan obs).current)
    (h3 : (streakScan 0 (obs.map obsToRecord)).maxS = (teamStreakScan obs).maxS)
    (h4 : (streakScan 0 (obs.map obsToRecord)).ongoing = (teamStreakScan obs).ongoing) :
    teamStatsTuple obs = posStatsTuple 0 (obs.map obsToRecord) := by
  unfold teamStatsTuple posStatsTuple teamStreakFinal streakFinal
  by_cases hc : MIN_STREAK ≤ (teamStreakScan obs).current ∧ (teamStreakScan obs).ongoing = true
  · have hcP : MIN_STREAK ≤ (streakScan 0 (obs.map obsToRecord)).current
        ∧ (streakScan 0 (obs.map obsToRecord)).ongoing = true := by
      rw [h2, h4]
      exact hc
    rw [if_pos hc, if_pos hcP]
    show (bump (teamStreakScan obs).counts (teamStreakScan obs).current,
          (teamStreakScan obs).current, (teamStreakScan obs).maxS,
          (teamStreakScan obs).ongoing)
        = (bump (streakScan 0 (obs.map obsToRecord)).counts
            (streakScan 0 (obs.map obsToRecord)).current,
          (streakScan 0 (obs.map obsToRecord)).current,
          (streakScan 0 (obs.map obsToRecord)).maxS,
          (streakScan 0 (obs.map obsToRecord)).ongoing)
    rw [h1, h2, h3, h4]
  · have hcP : ¬(MIN_STREAK ≤ (streakScan 0 (obs.map obsToRecord)).current
        ∧ (streakScan 0 (obs.map obsToRecord)).ongoing = true) := by
      rw [h2, h4]
      exact hc
    rw [if_neg hc, if_neg hcP]
    show ((teamStreakScan obs).counts, (teamStreakScan obs).current,
          (teamStreakScan obs).maxS, (teamStreakScan obs).ongoing)
        = ((streakScan 0 (obs.map obsToRecord)).counts,
          (streakScan 0 (obs.map obsToRecord)).current,
          (streakScan 0 (obs.map obsToRecord)).maxS,
          (streakScan 0 (obs.map obsToRecord)).ongoing)
    rw [h1, h2, h3, h4]

/-- C3 counterexample: on SAM's accumulated sequence of two NG observations at
the non-adjacent rounds 1 and 7, the by-team computation reports one run of 2
while the per-position engine fed the same sequence applies the discontinuity
rule and reports two runs with maximum 1 — the statistics are not identical. -/
theorem C3_counterexample :
    teamStatsTuple (build_team_history recsC3 "SAM")
      ≠ posStatsTuple 0 ((build_team_history recsC3 "SAM").map obsToRecord) := by
  decide

/-- C3 (amended): the by-team streak computation applies no round-number
discontinuity rule (and tracks no run start marker), so it does not always
reproduce the per-position engine's statistics on the team's accumulated
observation sequence — the counterexample exhibits a round gap inside an
active run where they differ; whenever the successive round numbers of the
sequence are cyclically adjacent, the histogram, trailing run, maximum run and
ongoing flag of the two computations coincide. -/
theorem C3_amended :
    ∀ obs : List TeamObs,
      obs.Chain' (fun a b => is_consecutive a.giornata b.giornata = true) →
      teamStatsTuple obs = posStatsTuple 0 (obs.map obsToRecord) := by
  intro obs hchain
  obtain ⟨h1, h2, h3, h4⟩ := teamPosCorr obs ⟨[], 0, 0, false⟩ initStreak rfl rfl rfl rfl
    (fun lg o hlg _ => Option.noConfusion hlg) hchain
  exact finalCorr obs h1 h2 h3 h4

/-- C5 witness: on the concrete two-record collection the streak input is a
permutation of the collection. -/
theorem C5_witness : (streakInput [rC5a, rC5b]).Perm [rC5a, rC5b] :=
  (C5_amended [rC5a, rC5b]).1

/-- C8 witness: re-pushing a concrete one-item batch reports zero new
insertions. -/
theorem C8_witness :
    (pushBatch (pushBatch [] [⟨some "05/02/2026", some "05/02/2026", some "7", some "10:00",
      [⟨some "NG", none⟩], some 1⟩] "t1").1 [⟨some "05/02/2026", some "05/02/2026", some "7",
      some "10:00", [⟨some "NG", none⟩], some 1⟩] "t2").2 = 0 :=
  (C8_idempotent [] [⟨some "05/02/2026", some "05/02/2026", some "7", some "10:00",
    [⟨some "NG", none⟩], some 1⟩] "t1" "t2").1

theorem obsC3w_chain :
    obsC3w.Chain' (fun a b => is_consecutive a.giornata b.giornata = true) := by
  rw [show obsC3w = [⟨"NG", "4", "10:00", "ROM"⟩, ⟨"NG", "5", "10:00", "JUV"⟩] from rfl,
    List.chain'_cons]
  exact ⟨by decide, List.chain'_singleton _⟩

/-- C3 witness: on a concrete gap-free observation sequence the by-team scan
and the per-position engine report the same statistics. -/
theorem C3_witness :
    obsC3w.Chain' (fun a b => is_consecutive a.giornata b.giornata = true)
    ∧ teamStatsTuple obsC3w = posStatsTuple 0 (obsC3w.map obsToRecord) :=
  ⟨obsC3w_chain, C3_amended obsC3w obsC3w_chain⟩

end FasMonitor
